import Mathlib

/-!
Shallow embedding of `src/graph.rs`: a generic graph container with
directed/undirected edge storage, BFS/DFS traversal and unweighted path
finding.

`HashMap` is modelled as an association list where lookup returns the first
matching entry and insertion appends a fresh entry at the end; `VecDeque` is
a `List` whose head is the front of the deque.  Panics are modelled as
`Except` errors (`add_edge`) or as `none` results (`create_trav`,
`Traverse::next`), as documented at each definition.
-/

section AssocOps

variable {V : Type} {β : Type} [DecidableEq V]

/-- Models `HashMap::get(&a)`: value of the first entry whose key is `a`. -/
def alookup : List (V × β) → V → Option β
  | [], _ => none
  | (k, x) :: rest, a => if k = a then some x else alookup rest a

/-- Models `HashMap::entry(k).or_insert(d)`: keep the map unchanged when `k` is
present, otherwise add the entry `(k, d)`. -/
def orInsert (m : List (V × β)) (k : V) (d : β) : List (V × β) :=
  match alookup m k with
  | some _ => m
  | none => m ++ [(k, d)]

/-- Mutation through the reference returned by `HashMap::entry`: apply `f`
to the value stored at key `k` (the first matching entry). -/
def updateAt : List (V × β) → V → (β → β) → List (V × β)
  | [], _, _ => []
  | (k, x) :: rest, a, f =>
      if k = a then (k, f x) :: rest else (k, x) :: updateAt rest a f

theorem alookup_append_left {m l : List (V × β)} {a : V} {x : β}
    (h : alookup m a = some x) : alookup (m ++ l) a = some x := by
  induction m with
  | nil => simp [alookup] at h
  | cons p rest ih =>
    obtain ⟨k, y⟩ := p
    by_cases hk : k = a
    · simp [alookup, hk] at h ⊢
      exact h
    · simp [alookup, hk] at h ⊢
      exact ih h

theorem alookup_append_right {m l : List (V × β)} {a : V}
    (h : alookup m a = none) : alookup (m ++ l) a = alookup l a := by
  induction m with
  | nil => rfl
  | cons p rest ih =>
    obtain ⟨k, y⟩ := p
    by_cases hk : k = a
    · simp [alookup, hk] at h
    · simp [alookup, hk] at h ⊢
      exact ih h

theorem alookup_orInsert_self (m : List (V × β)) (k : V) (d : β) :
    alookup (orInsert m k d) k = some ((alookup m k).getD d) := by
  unfold orInsert
  cases h : alookup m k with
  | some x => simp [h]
  | none => rw [alookup_append_right h]; simp [alookup]

theorem alookup_orInsert_ne {m : List (V × β)} {k a : V} {d : β} (h : a ≠ k) :
    alookup (orInsert m k d) a = alookup m a := by
  unfold orInsert
  cases hm : alookup m k with
  | some x => rfl
  | none =>
    cases ha : alookup m a with
    | some y => exact alookup_append_left ha
    | none =>
      rw [alookup_append_right ha]
      simp [alookup, Ne.symm h]

theorem alookup_updateAt_self (m : List (V × β)) (k : V) (f : β → β) :
    alookup (updateAt m k f) k = (alookup m k).map f := by
  induction m with
  | nil => rfl
  | cons p rest ih =>
    obtain ⟨b, x⟩ := p
    by_cases hb : b = k
    · subst hb; simp [updateAt, alookup]
    · simp [updateAt, alookup, hb, ih]

theorem alookup_updateAt_ne {m : List (V × β)} {k a : V} {f : β → β}
    (h : a ≠ k) : alookup (updateAt m k f) a = alookup m a := by
  induction m with
  | nil => rfl
  | cons p rest ih =>
    obtain ⟨b, x⟩ := p
    by_cases hb : b = k
    · subst hb
      simp [updateAt, alookup, Ne.symm h]
    · by_cases hba : b = a
      · subst hba; simp [updateAt, alookup, hb]
      · simp [updateAt, alookup, hb, hba, ih]

theorem updateAt_of_fix {m : List (V × β)} {k : V} {t : β} {f : β → β}
    (h : alookup m k = some t) (hf : f t = t) : updateAt m k f = m := by
  induction m with
  | nil => simp [alookup] at h
  | cons p rest ih =>
    obtain ⟨b, x⟩ := p
    by_cases hb : b = k
    · subst hb
      simp [alookup] at h
      simp [updateAt, h, hf]
    · simp [alookup, hb] at h
      simp [updateAt, hb, ih h]

theorem orInsert_of_lookup_some {m : List (V × β)} {k : V} {x : β}
    (h : alookup m k = some x) (d : β) : orInsert m k d = m := by
  unfold orInsert; rw [h]

theorem alookup_eq_none_iff {m : List (V × β)} {a : V} :
    alookup m a = none ↔ a ∉ m.map Prod.fst := by
  induction m with
  | nil => simp [alookup]
  | cons p rest ih =>
    obtain ⟨k, x⟩ := p
    by_cases hk : k = a
    · subst hk; simp [alookup]
    · simp [alookup, hk, ih, Ne.symm hk]

theorem mem_keys_of_lookup_some {m : List (V × β)} {k : V} {x : β}
    (h : alookup m k = some x) : k ∈ m.map Prod.fst := by
  by_contra hk
  rw [← alookup_eq_none_iff] at hk
  rw [h] at hk
  exact Option.noConfusion hk

theorem mem_keys_orInsert {m : List (V × β)} {k a : V} {d : β} :
    a ∈ (orInsert m k d).map Prod.fst ↔ a ∈ m.map Prod.fst ∨ a = k := by
  unfold orInsert
  cases h : alookup m k with
  | some x =>
    constructor
    · exact fun hm => Or.inl hm
    · rintro (hm | rfl)
      · exact hm
      · exact mem_keys_of_lookup_some h
  | none => simp

theorem keys_updateAt (m : List (V × β)) (k : V) (f : β → β) :
    (updateAt m k f).map Prod.fst = m.map Prod.fst := by
  induction m with
  | nil => rfl
  | cons p rest ih =>
    obtain ⟨b, x⟩ := p
    by_cases hb : b = k
    · simp [updateAt, hb]
    · simp [updateAt, hb, ih]

end AssocOps

/-- Models `type EdgeTable<V, E, S> = HashMap<V, Option<E>, S>`: the edge value is
stored in an `Option` because if the edge is undirected it is stored twice;
the payload sits at `u -> v` only where `u < v` and `none` at `v -> u`. -/
abbrev EdgeTable (V E : Type) := List (V × Option E)

/-- Models `type NodeTable<V, E, S> = HashMap<V, EdgeTable<V, E, S>, S>`. -/
abbrev NodeTable (V E : Type) := List (V × EdgeTable V E)

/-- Models `struct Graph<V, E, S>`: the node tables plus the directedness flag
fixed at construction (the hasher is irrelevant to behaviour and dropped). -/
structure Graph (V E : Type) where
  node_tables : NodeTable V E
  directed : Bool
  deriving DecidableEq

/-- Models `Graph::new(directed)`: empty node tables. -/
def Graph.new (V E : Type) (directed : Bool) : Graph V E :=
  { node_tables := [], directed := directed }

section GraphOps

variable {V E : Type} [DecidableEq V] [LinearOrder V]

/-- Models `Graph::add_vertex(v)`: `self.node_tables.entry(v).or_insert(empty table)`. -/
def addVertex (g : Graph V E) (v : V) : Graph V E :=
  { g with node_tables := orInsert g.node_tables v [] }

/-- The registered vertices: the keys of `node_tables`. -/
def Graph.vertices (g : Graph V E) : List V :=
  g.node_tables.map Prod.fst

/-- The stored slot for the ordered pair `(a, b)`:
`node_tables.get(&a).and_then(|t| t.get(&b))`, i.e. `some oe` when `b` is a
key of `a`'s edge table (with `oe` the stored optional payload). -/
def slotN (nt : NodeTable V E) (a b : V) : Option (Option E) :=
  (alookup nt a).bind (fun t => alookup t b)

/-- Application of `slotN` to a graph's node tables. -/
def slot (g : Graph V E) (a b : V) : Option (Option E) :=
  slotN g.node_tables a b

/-- Models `self.add_vertex(k).entry(b).or_insert(d)` acting on the node tables:
ensure `k` has an edge table, then or-insert `d` at key `b` of that table. -/
def entryOrInsert (nt : NodeTable V E) (k b : V) (d : Option E) : NodeTable V E :=
  updateAt (orInsert nt k []) k (fun t => orInsert t b d)

/-- The mirror step of `add_edge` for canonical pair `(a, b)`:
`if !self.directed { self.add_vertex(b).entry(a).or_insert(None); }`. -/
def mirrorStep (g : Graph V E) (a b : V) : NodeTable V E :=
  if g.directed = false then entryOrInsert g.node_tables b a none
  else g.node_tables

/-- The two ways `add_edge` can panic: the explicit
`panic!("self loops not allowed yet")`, and the final `.as_mut().unwrap()`
on the stored optional payload. -/
inductive AddEdgeError where
  | selfLoop
  | unwrapPanic
  deriving DecidableEq

/-- The body of `Graph::add_edge` after the self-loop check and the
canonicalization, for the already-canonical pair `(a, b)`: run the mirror
step, then `self.add_vertex(a).entry(b).or_insert(Some(e))`, and finally
read the slot back and unwrap it (`.as_mut().unwrap()`), returning the
stored payload together with the updated graph. -/
def addEdgeCanon (g : Graph V E) (a b : V) (e : E) :
    Except AddEdgeError (E × Graph V E) :=
  match slotN (entryOrInsert (mirrorStep g a b) a b (some e)) a b with
  | some (some payload) =>
      Except.ok (payload,
        { g with node_tables := entryOrInsert (mirrorStep g a b) a b (some e) })
  | _ => Except.error AddEdgeError.unwrapPanic

/-- Models `Graph::add_edge((u, v), e)`: reject self loops, canonicalize to
`(min, max)` when the graph is undirected (`if !self.directed && u > v`),
then run the canonical body. -/
def addEdge (g : Graph V E) (uv : V × V) (e : E) :
    Except AddEdgeError (E × Graph V E) :=
  if uv.1 = uv.2 then Except.error AddEdgeError.selfLoop
  else if g.directed = false ∧ uv.2 < uv.1 then addEdgeCanon g uv.2 uv.1 e
  else addEdgeCanon g uv.1 uv.2 e

/-- Models `Graph::find_edge((u, v))`: canonicalize the same way as insertion, look
up `u`'s table then `v`'s slot, and flatten (`.and_then(|e| e.as_ref())`),
so a mirror marker reports no payload. -/
def findEdge (g : Graph V E) (uv : V × V) : Option E :=
  if g.directed = false ∧ uv.2 < uv.1 then
    (slotN g.node_tables uv.2 uv.1).bind id
  else
    (slotN g.node_tables uv.1 uv.2).bind id

end GraphOps

/-- Models `enum TraverseMethod` with its two variants BFS and DFS. -/
inductive TraverseMethod where
  | BFS
  | DFS
  deriving DecidableEq

/-- Models `struct Traverse`: the back-pointer map (parent in the search tree) and
the search queue. The borrowed graph is passed to `Traverse.next`
explicitly instead of being stored. -/
structure Traverse (V : Type) where
  back_ptr : List (V × V)
  search_queue : List V
  method : TraverseMethod
  deriving DecidableEq

section TraverseOps

variable {V E : Type} [DecidableEq V]

/-- Models `Graph::create_trav(v, method)`: `none` models the
`panic!("non-existant vertex")` when `v` is not a key of `node_tables`;
otherwise the back-pointer map is `{v -> v}` and the queue holds just `v`. -/
def createTrav (g : Graph V E) (v : V) (method : TraverseMethod) :
    Option (Traverse V) :=
  if (alookup g.node_tables v).isNone then none
  else some
    { back_ptr := orInsert [] v v
      search_queue := [v]
      method := method }

/-- Models `Graph::dfs(v)`. -/
def Graph.dfs (g : Graph V E) (v : V) : Option (Traverse V) :=
  createTrav g v TraverseMethod.DFS

/-- Models `Graph::bfs(v)`. -/
def Graph.bfs (g : Graph V E) (v : V) : Option (Traverse V) :=
  createTrav g v TraverseMethod.BFS

/-- The `for u in ...keys()` loop of `Traverse::next`, iterating over the
popped vertex `v`'s edge table: as in the source, the guard tests
`back_ptr.get(&v)` — the popped vertex, not the neighbour `u` — and on
success pushes `u` to the back of the queue and records `back_ptr[u] = v`. -/
def nextLoop (v : V) : EdgeTable V E → List V → List (V × V) →
    List V × List (V × V)
  | [], q, bp => (q, bp)
  | (u, _) :: rest, q, bp =>
      if (alookup bp v).isNone then
        nextLoop v rest (q ++ [u]) (orInsert bp u v)
      else
        nextLoop v rest q bp

/-- Models `Traverse::next`: pop from the front (BFS) or the back (DFS) of the
queue; `some (none, t)` models the iterator being exhausted, and the outer
`none` models the `node_tables.get(&v).unwrap()` panic on a vertex with no
node table. -/
def Traverse.next (g : Graph V E) (t : Traverse V) :
    Option (Option V × Traverse V) :=
  match (match t.method with
         | TraverseMethod.BFS =>
            match t.search_queue with
            | [] => none
            | x :: rest => some (x, rest)
         | TraverseMethod.DFS =>
            match t.search_queue.getLast? with
            | none => none
            | some x => some (x, t.search_queue.dropLast)) with
  | none => some (none, t)
  | some (v, q) =>
    match alookup g.node_tables v with
    | none => none
    | some tbl =>
      some (some v,
        { t with
            search_queue := (nextLoop v tbl q t.back_ptr).1
            back_ptr := (nextLoop v tbl q t.back_ptr).2 })

/-- Iterate a traversal to exhaustion (with fuel), collecting the yielded
vertices in order; a panic or running out of fuel ends the list. -/
def runTrav (g : Graph V E) : Nat → Traverse V → List V
  | 0, _ => []
  | fuel + 1, t =>
    match Traverse.next g t with
    | some (some v, t') => v :: runTrav g fuel t'
    | _ => []

/-- The search loop of `Graph::find_path`: call `iter.next()?` until the
target is yielded, then return the iterator's back-pointer map; `none`
models both the `?` early return (traversal exhausted, no path) and a
panic inside `next` (and, unreachably with the fuel chosen by `findPath`,
fuel running out). -/
def findPathLoop (g : Graph V E) (tgt : V) : Nat → Traverse V →
    Option (List (V × V))
  | 0, _ => none
  | fuel + 1, it =>
    match Traverse.next g it with
    | some (some v, it') =>
        if v = tgt then some it'.back_ptr else findPathLoop g tgt fuel it'
    | _ => none

/-- The back-pointer walk of `Graph::find_path`:
`while back_ptr[&node] != node { v.push(node); node = back_ptr[&node]; }`;
`none` models the indexing panic on a missing key (and, unreachably here,
fuel running out). -/
def walkBack (bp : List (V × V)) : Nat → V → List V → Option (List V)
  | 0, _, _ => none
  | fuel + 1, node, acc =>
    match alookup bp node with
    | none => none
    | some parent =>
        if parent = node then some acc
        else walkBack bp fuel parent (acc ++ [node])

/-- Models `Graph::find_path(s, t)`: run a DFS from `s` until `t` is found, then
follow the back pointers from `t`, collecting the path in target-to-source
order, excluding `s`. The fuel `node_tables.length + 2` bounds both loops;
it is never exhausted because every popped vertex already has a back
pointer, so the queue only shrinks from its initial single element. -/
def findPath (g : Graph V E) (s t : V) : Option (List V) :=
  match Graph.dfs g s with
  | none => none
  | some it =>
    match findPathLoop g t (g.node_tables.length + 2) it with
    | none => none
    | some bp => walkBack bp (g.node_tables.length + 2) t []

end TraverseOps

section GraphLemmas

variable {V E : Type} [DecidableEq V] [LinearOrder V]

omit [LinearOrder V] in
theorem alookup_entryOrInsert_self (nt : NodeTable V E) (k b : V) (d : Option E) :
    alookup (entryOrInsert nt k b d) k =
      some (orInsert ((alookup nt k).getD []) b d) := by
  unfold entryOrInsert
  rw [alookup_updateAt_self, alookup_orInsert_self]
  rfl

omit [LinearOrder V] in
theorem alookup_entryOrInsert_ne {nt : NodeTable V E} {k b a : V} {d : Option E}
    (h : a ≠ k) : alookup (entryOrInsert nt k b d) a = alookup nt a := by
  unfold entryOrInsert
  rw [alookup_updateAt_ne h, alookup_orInsert_ne h]

omit [LinearOrder V] in
theorem slotN_entryOrInsert_outer_ne {nt : NodeTable V E} {k b a c : V}
    {d : Option E} (h : a ≠ k) :
    slotN (entryOrInsert nt k b d) a c = slotN nt a c := by
  unfold slotN
  rw [alookup_entryOrInsert_ne h]

omit [LinearOrder V] in
theorem slotN_entryOrInsert_self (nt : NodeTable V E) (k b : V) (d : Option E) :
    slotN (entryOrInsert nt k b d) k b = some ((slotN nt k b).getD d) := by
  unfold slotN
  rw [alookup_entryOrInsert_self]
  cases h : alookup nt k with
  | some t => simp [h, alookup_orInsert_self]
  | none => simp [h, alookup_orInsert_self, alookup]

omit [LinearOrder V] in
theorem slotN_entryOrInsert_inner_ne {nt : NodeTable V E} {k b c : V}
    {d : Option E} (h : c ≠ b) :
    slotN (entryOrInsert nt k b d) k c = slotN nt k c := by
  unfold slotN
  rw [alookup_entryOrInsert_self]
  cases hk : alookup nt k with
  | some t => simp [hk, alookup_orInsert_ne h]
  | none => simp [hk, alookup_orInsert_ne h, alookup, Ne.symm h]

omit [LinearOrder V] in
theorem entryOrInsert_no_op {nt : NodeTable V E} {k c : V} {x : Option E}
    (h : slotN nt k c = some x) (d : Option E) : entryOrInsert nt k c d = nt := by
  unfold slotN at h
  cases hk : alookup nt k with
  | none => rw [hk] at h; exact Option.noConfusion h
  | some t =>
    rw [hk] at h
    simp only [Option.some_bind] at h
    unfold entryOrInsert
    rw [orInsert_of_lookup_some hk]
    exact updateAt_of_fix hk (orInsert_of_lookup_some h d)

omit [LinearOrder V] in
theorem addEdgeCanon_ok {g : Graph V E} {a b : V} {e p : E} {g' : Graph V E}
    (hok : addEdgeCanon g a b e = Except.ok (p, g')) :
    g' = { g with node_tables := entryOrInsert (mirrorStep g a b) a b (some e) } ∧
    slotN g'.node_tables a b = some (some p) := by
  revert hok
  unfold addEdgeCanon
  cases h : slotN (entryOrInsert (mirrorStep g a b) a b (some e)) a b with
  | none => intro hok; exact Except.noConfusion hok
  | some oe =>
    cases oe with
    | none => intro hok; exact Except.noConfusion hok
    | some q =>
      intro hok
      have h2 := Except.ok.inj hok
      injection h2 with h3 h4
      subst h3
      subst h4
      exact ⟨rfl, h⟩

omit [LinearOrder V] in
theorem addEdgeCanon_of_slot_some {g : Graph V E} {a b : V} {e q : E}
    (h : slotN (entryOrInsert (mirrorStep g a b) a b (some e)) a b
        = some (some q)) :
    addEdgeCanon g a b e = Except.ok (q,
      { g with node_tables := entryOrInsert (mirrorStep g a b) a b (some e) }) := by
  unfold addEdgeCanon
  rw [h]

/-- The storage invariant of every graph built through the API: a stored
slot `(a, b)` carries a payload exactly when the graph is directed, or the
pair is canonically ordered (`a < b`); mirror markers (`none` slots) occur
only in undirected graphs at `a > b`. -/
def WF (g : Graph V E) : Prop :=
  ∀ a b : V, ∀ oe : Option E, slot g a b = some oe →
    (g.directed = true → oe.isSome = true) ∧
    (g.directed = false → (oe.isSome = true ↔ a < b))

theorem WF_new (d : Bool) : WF (Graph.new V E d) := by
  intro a b oe h
  simp [slot, slotN, Graph.new, alookup] at h

theorem WF_addVertex {g : Graph V E} (hW : WF g) (v : V) :
    WF (addVertex g v) := by
  intro a b oe h
  have h' : slotN (orInsert g.node_tables v []) a b = some oe := h
  by_cases hav : a = v
  · subst hav
    unfold slotN at h'
    rw [alookup_orInsert_self] at h'
    cases hg : alookup g.node_tables a with
    | some t =>
      rw [hg] at h'
      simp only [Option.getD_some, Option.some_bind] at h'
      exact hW a b oe (by unfold slot slotN; rw [hg]; exact h')
    | none =>
      rw [hg] at h'
      simp [alookup] at h'
  · unfold slotN at h'
    rw [alookup_orInsert_ne hav] at h'
    exact hW a b oe h'

theorem WF_addEdgeCanon {g : Graph V E} {a b : V} {e p : E} {g' : Graph V E}
    (hW : WF g) (hab : g.directed = false → a < b)
    (hok : addEdgeCanon g a b e = Except.ok (p, g')) : WF g' := by
  obtain ⟨hg', _⟩ := addEdgeCanon_ok hok
  subst hg'
  intro x y oe h
  have h' : slotN (entryOrInsert (mirrorStep g a b) a b (some e)) x y
      = some oe := h
  cases hd : g.directed with
  | true =>
    have hms : mirrorStep g a b = g.node_tables := by
      unfold mirrorStep; rw [hd]; simp
    rw [hms] at h'
    refine ⟨fun _ => ?_, fun hfalse => Bool.noConfusion hfalse⟩
    by_cases hxa : x = a
    · subst hxa
      by_cases hyb : y = b
      · subst hyb
        rw [slotN_entryOrInsert_self] at h'
        cases hnt : slotN g.node_tables x y with
        | some oe' =>
          rw [hnt] at h'
          simp only [Option.getD_some, Option.some_inj] at h'
          subst h'
          exact (hW x y oe' hnt).1 hd
        | none =>
          rw [hnt] at h'
          simp only [Option.getD_none, Option.some_inj] at h'
          subst h'
          rfl
      · rw [slotN_entryOrInsert_inner_ne hyb] at h'
        exact (hW x y oe h').1 hd
    · rw [slotN_entryOrInsert_outer_ne hxa] at h'
      exact (hW x y oe h').1 hd
  | false =>
    have hab' : a < b := hab hd
    have hba : ¬ b < a := not_lt_of_gt hab'
    have hnab : a ≠ b := ne_of_lt hab'
    have hms : mirrorStep g a b = entryOrInsert g.node_tables b a none := by
      unfold mirrorStep; rw [hd]; simp
    rw [hms] at h'
    refine ⟨fun htrue => Bool.noConfusion htrue, fun _ => ?_⟩
    by_cases hxa : x = a
    · subst hxa
      by_cases hyb : y = b
      · subst hyb
        rw [slotN_entryOrInsert_self] at h'
        rw [slotN_entryOrInsert_outer_ne hnab] at h'
        cases hnt : slotN g.node_tables x y with
        | some oe' =>
          rw [hnt] at h'
          simp only [Option.getD_some, Option.some_inj] at h'
          subst h'
          exact (hW x y oe' hnt).2 hd
        | none =>
          rw [hnt] at h'
          simp only [Option.getD_none, Option.some_inj] at h'
          subst h'
          simp [hab']
      · rw [slotN_entryOrInsert_inner_ne hyb] at h'
        rw [slotN_entryOrInsert_outer_ne hnab] at h'
        exact (hW x y oe h').2 hd
    · rw [slotN_entryOrInsert_outer_ne hxa] at h'
      by_cases hxb : x = b
      · subst hxb
        by_cases hya : y = a
        · subst hya
          rw [slotN_entryOrInsert_self] at h'
          cases hnt : slotN g.node_tables x y with
          | some oe' =>
            rw [hnt] at h'
            simp only [Option.getD_some, Option.some_inj] at h'
            subst h'
            exact (hW x y oe' hnt).2 hd
          | none =>
            rw [hnt] at h'
            simp only [Option.getD_none, Option.some_inj] at h'
            subst h'
            simp [hba]
        · rw [slotN_entryOrInsert_inner_ne hya] at h'
          exact (hW x y oe h').2 hd
      · rw [slotN_entryOrInsert_outer_ne hxb] at h'
        exact (hW x y oe h').2 hd

theorem WF_addEdge {g : Graph V E} {uv : V × V} {e p : E} {g' : Graph V E}
    (hW : WF g) (hok : addEdge g uv e = Except.ok (p, g')) : WF g' := by
  unfold addEdge at hok
  by_cases h1 : uv.1 = uv.2
  · rw [if_pos h1] at hok; exact Except.noConfusion hok
  · rw [if_neg h1] at hok
    by_cases h2 : g.directed = false ∧ uv.2 < uv.1
    · rw [if_pos h2] at hok
      exact WF_addEdgeCanon hW (fun _ => h2.2) hok
    · rw [if_neg h2] at hok
      refine WF_addEdgeCanon hW (fun hd => ?_) hok
      rcases lt_or_gt_of_ne h1 with hlt | hgt
      · exact hlt
      · exact absurd ⟨hd, hgt⟩ h2

/-- The graphs reachable through the public construction API: `Graph::new`
followed by any sequence of `add_vertex` and successful `add_edge` calls. -/
inductive Built : Graph V E → Prop where
  | newG (d : Bool) : Built (Graph.new V E d)
  | vertexStep {g : Graph V E} {v : V} : Built g → Built (addVertex g v)
  | edgeStep {g : Graph V E} {uv : V × V} {e p : E} {g' : Graph V E} :
      Built g → addEdge g uv e = Except.ok (p, g') → Built g'

theorem Built.wf {g : Graph V E} (h : Built g) : WF g := by
  induction h with
  | newG d => exact WF_new d
  | vertexStep _ ih => exact WF_addVertex ih _
  | edgeStep _ hok ih => exact WF_addEdge ih hok

theorem addEdge_ok_ne {g : Graph V E} {u v : V} {e p : E} {g' : Graph V E}
    (hok : addEdge g (u, v) e = Except.ok (p, g')) : u ≠ v := by
  intro h
  unfold addEdge at hok
  rw [if_pos h] at hok
  exact Except.noConfusion hok

theorem addEdge_self_loop_eq (g : Graph V E) (x : V) (e : E) :
    addEdge g (x, x) e = Except.error AddEdgeError.selfLoop := by
  unfold addEdge
  rw [if_pos rfl]

theorem addEdge_undirected_eq {g : Graph V E} (hd : g.directed = false)
    {u v : V} (hne : u ≠ v) (e : E) :
    addEdge g (u, v) e = addEdgeCanon g (min u v) (max u v) e := by
  unfold addEdge
  rw [if_neg hne]
  by_cases hvu : v < u
  · rw [if_pos ⟨hd, hvu⟩, min_eq_right hvu.le, max_eq_left hvu.le]
  · rw [if_neg (fun h => hvu h.2)]
    have huv : u ≤ v := not_lt.mp hvu
    rw [min_eq_left huv, max_eq_right huv]

theorem addEdge_directed_eq {g : Graph V E} (hd : g.directed = true)
    {u v : V} (hne : u ≠ v) (e : E) :
    addEdge g (u, v) e = addEdgeCanon g u v e := by
  unfold addEdge
  rw [if_neg hne, if_neg (fun h => absurd h.1 (by simp [hd]))]

theorem findEdge_undirected_eq {g : Graph V E} (hd : g.directed = false)
    (u v : V) :
    findEdge g (u, v) = (slotN g.node_tables (min u v) (max u v)).bind id := by
  unfold findEdge
  by_cases hvu : v < u
  · rw [if_pos ⟨hd, hvu⟩, min_eq_right hvu.le, max_eq_left hvu.le]
  · rw [if_neg (fun h => hvu h.2)]
    have huv : u ≤ v := not_lt.mp hvu
    rw [min_eq_left huv, max_eq_right huv]

theorem findEdge_directed_eq {g : Graph V E} (hd : g.directed = true)
    (u v : V) :
    findEdge g (u, v) = (slotN g.node_tables u v).bind id := by
  unfold findEdge
  rw [if_neg (fun h => absurd h.1 (by simp [hd]))]

omit [LinearOrder V] in
theorem mirrorStep_directed {g : Graph V E} (hd : g.directed = true) (a b : V) :
    mirrorStep g a b = g.node_tables := by
  unfold mirrorStep
  rw [if_neg (by simp [hd])]

omit [LinearOrder V] in
theorem mirrorStep_undirected {g : Graph V E} (hd : g.directed = false)
    (a b : V) :
    mirrorStep g a b = entryOrInsert g.node_tables b a none := by
  unfold mirrorStep
  rw [if_pos hd]

theorem addEdgeCanon_no_unwrap {g : Graph V E} {a b : V} (e : E)
    (hW : WF g) (hab : g.directed = false → a < b) (hne : a ≠ b) :
    ∃ q g', addEdgeCanon g a b e = Except.ok (q, g') := by
  have hmain : ∃ q,
      slotN (entryOrInsert (mirrorStep g a b) a b (some e)) a b
        = some (some q) := by
    rw [slotN_entryOrInsert_self]
    cases hms : slotN (mirrorStep g a b) a b with
    | none => exact ⟨e, rfl⟩
    | some oe =>
      cases oe with
      | some q => exact ⟨q, rfl⟩
      | none =>
        exfalso
        cases hd : g.directed with
        | true =>
          rw [mirrorStep_directed hd] at hms
          have h2 := (hW a b none hms).1 hd
          simp at h2
        | false =>
          have hab' := hab hd
          rw [mirrorStep_undirected hd,
            slotN_entryOrInsert_outer_ne hne] at hms
          have h2 := (hW a b none hms).2 hd
          simp [hab'] at h2
  obtain ⟨q, hq⟩ := hmain
  exact ⟨q, _, addEdgeCanon_of_slot_some hq⟩

theorem addEdgeCanon_slots {g : Graph V E} {a b : V} {e p : E}
    {g' : Graph V E} (hW : WF g) (hd : g.directed = false) (hab : a < b)
    (hok : addEdgeCanon g a b e = Except.ok (p, g')) :
    slot g' a b = some (some p) ∧ slot g' b a = some none := by
  obtain ⟨hg', hcanon⟩ := addEdgeCanon_ok hok
  refine ⟨hcanon, ?_⟩
  subst hg'
  have hba : b ≠ a := ne_of_gt hab
  show slotN (entryOrInsert (mirrorStep g a b) a b (some e)) b a = some none
  rw [slotN_entryOrInsert_outer_ne hba, mirrorStep_undirected hd,
    slotN_entryOrInsert_self]
  cases hnt : slotN g.node_tables b a with
  | none => rfl
  | some oe =>
    have h2 := (hW b a oe hnt).2 hd
    cases oe with
    | none => rfl
    | some q =>
      exfalso
      simp at h2
      exact absurd hab (not_lt_of_gt h2)

omit [LinearOrder V] in
theorem addEdgeCanon_idem {g : Graph V E} {a b : V} {A p : E}
    {g1 : Graph V E} (hd : g.directed = false) (hne : a ≠ b)
    (h1 : addEdgeCanon g a b A = Except.ok (p, g1)) (B : E) :
    addEdgeCanon g1 a b B = Except.ok (p, g1) := by
  obtain ⟨hg1, hslot⟩ := addEdgeCanon_ok h1
  have hba : b ≠ a := Ne.symm hne
  have hmirror : ∃ x, slotN g1.node_tables b a = some x := by
    rw [hg1]
    show ∃ x,
      slotN (entryOrInsert (mirrorStep g a b) a b (some A)) b a = some x
    rw [slotN_entryOrInsert_outer_ne hba, mirrorStep_undirected hd,
      slotN_entryOrInsert_self]
    exact ⟨_, rfl⟩
  obtain ⟨x, hx⟩ := hmirror
  have hd1 : g1.directed = false := by rw [hg1]; exact hd
  have hms1 : mirrorStep g1 a b = g1.node_tables := by
    unfold mirrorStep
    rw [if_pos hd1]
    exact entryOrInsert_no_op hx none
  have hnt2 : entryOrInsert g1.node_tables a b (some B) = g1.node_tables :=
    entryOrInsert_no_op hslot (some B)
  have hs : slotN (entryOrInsert (mirrorStep g1 a b) a b (some B)) a b
      = some (some p) := by
    rw [hms1, hnt2]; exact hslot
  have h2 := addEdgeCanon_of_slot_some hs
  rw [hms1, hnt2] at h2
  exact h2

omit [LinearOrder V] in
theorem vertices_entryOrInsert {nt : NodeTable V E} {k b : V} {d : Option E}
    {a : V} :
    a ∈ (entryOrInsert nt k b d).map Prod.fst ↔
      a ∈ nt.map Prod.fst ∨ a = k := by
  unfold entryOrInsert
  rw [keys_updateAt]
  exact mem_keys_orInsert

omit [LinearOrder V] in
theorem vertices_addEdgeCanon {g : Graph V E} {a b : V} {e p : E}
    {g' : Graph V E} (hok : addEdgeCanon g a b e = Except.ok (p, g'))
    (x : V) :
    x ∈ g'.vertices ↔
      (x ∈ g.vertices ∨ x = a) ∨ (g.directed = false ∧ x = b) := by
  obtain ⟨hg', _⟩ := addEdgeCanon_ok hok
  subst hg'
  show x ∈ (entryOrInsert (mirrorStep g a b) a b (some e)).map Prod.fst ↔ _
  rw [vertices_entryOrInsert]
  cases hd : g.directed with
  | true =>
    rw [mirrorStep_directed hd]
    simp [Graph.vertices]
  | false =>
    rw [mirrorStep_undirected hd, vertices_entryOrInsert]
    simp [Graph.vertices]
    tauto

end GraphLemmas

/-- The undirected example graph produced by `add_edge((0, 1), 5)` on an
empty undirected graph: the payload sits at the canonical slot `(0, 1)` and
the mirror marker at `(1, 0)`. -/
def gU : Graph Nat Nat :=
  { node_tables := [(1, [(0, none)]), (0, [(1, some 5)])], directed := false }

/-- The directed example graph produced by `add_edge((0, 1), 5)` on an
empty directed graph: only the source vertex `0` gets a node table. -/
def gD : Graph Nat Nat :=
  { node_tables := [(0, [(1, some 5)])], directed := true }

section Claims

variable {V E : Type} [DecidableEq V] [LinearOrder V]

/-- C1: the claim that iterating `bfs(start)` or `dfs(start)` yields every
reachable vertex exactly once is REFUTED by the code. `Traverse::next`
guards the neighbour push with `back_ptr.get(&v).is_none()` where `v` is
the vertex just popped — not the neighbour `u` — and every popped vertex
already has a back pointer, so no neighbour is ever enqueued: on the
undirected graph `gU` with edge `(0, 1)` (payload present, so `1` is
reachable from `0`), both BFS and DFS from `0` yield exactly `[0]`,
omitting the reachable vertex `1`. -/
theorem traverse_yields_only_start_on_gU :
    addEdge (Graph.new Nat Nat false) (0, 1) 5 = Except.ok (5, gU) ∧
    findEdge gU (0, 1) = some 5 ∧
    Graph.bfs gU 0 =
      some { back_ptr := [(0, 0)], search_queue := [0],
             method := TraverseMethod.BFS } ∧
    runTrav gU 10
      { back_ptr := [(0, 0)], search_queue := [0],
        method := TraverseMethod.BFS } = [0] ∧
    Graph.dfs gU 0 =
      some { back_ptr := [(0, 0)], search_queue := [0],
             method := TraverseMethod.DFS } ∧
    runTrav gU 10
      { back_ptr := [(0, 0)], search_queue := [0],
        method := TraverseMethod.DFS } = [0] :=
  ⟨rfl, rfl, rfl, rfl, rfl, rfl⟩

/-- C2: the claim that `find_path(s, t)` returns a path exactly when `t` is
reachable from `s` is REFUTED by the code: because of the `Traverse::next`
bug (see C1), the underlying DFS yields only `s`, so `find_path(0, 1)` on
the undirected graph `gU` returns `none` even though the edge `(0, 1)` is
present and `1` is reachable; only `find_path(s, s)` succeeds (with the
empty path). -/
theorem find_path_misses_reachable_vertex :
    findEdge gU (0, 1) = some 5 ∧
    findPath gU 0 1 = none ∧
    findPath gU 0 0 = some [] :=
  ⟨rfl, rfl, rfl⟩

/-- C3 counterexample: on a directed graph, `add_edge((0, 1), 5)` succeeds
but does NOT register the target vertex `1` in `node_tables`: only the
source `0` becomes a key, so the claim that both endpoints are always
registered is false for directed graphs. -/
theorem addEdge_directed_skips_target :
    addEdge (Graph.new Nat Nat true) (0, 1) 5 = Except.ok (5, gD) ∧
    (0 : Nat) ∈ gD.vertices ∧ (1 : Nat) ∉ gD.vertices :=
  ⟨rfl, by decide, by decide⟩

/-- C3 (amended): after a successful `add_edge((u, v), e)`, both endpoints
are registered as vertices when the graph is undirected; when it is
directed only the source `u` is guaranteed to be registered, and the target
`v` is registered afterwards exactly when it already was before the call. -/
theorem addEdge_registers_endpoints {g : Graph V E} {u v : V} {e p : E}
    {g' : Graph V E} (hok : addEdge g (u, v) e = Except.ok (p, g')) :
    (g.directed = false → u ∈ g'.vertices ∧ v ∈ g'.vertices) ∧
    (g.directed = true →
      u ∈ g'.vertices ∧ (v ∈ g'.vertices ↔ v ∈ g.vertices)) := by
  have hne := addEdge_ok_ne hok
  constructor
  · intro hd
    rw [addEdge_undirected_eq hd hne e] at hok
    have hm := vertices_addEdgeCanon hok
    constructor
    · rw [hm u]
      rcases le_total u v with h | h
      · exact Or.inl (Or.inr (min_eq_left h).symm)
      · exact Or.inr ⟨hd, (max_eq_left h).symm⟩
    · rw [hm v]
      rcases le_total u v with h | h
      · exact Or.inr ⟨hd, (max_eq_right h).symm⟩
      · exact Or.inl (Or.inr (min_eq_right h).symm)
  · intro hd
    rw [addEdge_directed_eq hd hne e] at hok
    have hm := vertices_addEdgeCanon hok
    constructor
    · rw [hm u]
      exact Or.inl (Or.inr rfl)
    · rw [hm v]
      constructor
      · rintro ((h | h) | ⟨hdd, _⟩)
        · exact h
        · exact absurd h.symm hne
        · rw [hd] at hdd; exact Bool.noConfusion hdd
      · exact fun h => Or.inl (Or.inl h)

/-- C3 witness: the amended statement evaluated on the concrete undirected
and directed single-edge graphs. -/
theorem addEdge_registers_endpoints_witness :
    ((0 : Nat) ∈ gU.vertices ∧ (1 : Nat) ∈ gU.vertices) ∧
    ((0 : Nat) ∈ gD.vertices ∧
      ((1 : Nat) ∈ gD.vertices ↔ (1 : Nat) ∈ (Graph.new Nat Nat true).vertices)) :=
  ⟨(addEdge_registers_endpoints
      (rfl : addEdge (Graph.new Nat Nat false) ((0 : Nat), 1) 5
        = Except.ok (5, gU))).1 rfl,
   (addEdge_registers_endpoints
      (rfl : addEdge (Graph.new Nat Nat true) ((0 : Nat), 1) 5
        = Except.ok (5, gD))).2 rfl⟩

/-- C4: in an undirected graph built through the API, after a successful
`add_edge((u, v), e)` the returned payload is stored at the canonical
`(min, max)` slot, and the mirror slot `(max, min)` is present but holds an
empty payload (`none`), so each endpoint's adjacency table contains the
other endpoint while the payload is stored physically once. -/
theorem addEdge_undirected_canonical {g : Graph V E} {u v : V} {e p : E}
    {g' : Graph V E} (hB : Built g) (hd : g.directed = false)
    (hok : addEdge g (u, v) e = Except.ok (p, g')) :
    slot g' (min u v) (max u v) = some (some p) ∧
    slot g' (max u v) (min u v) = some none := by
  have hne := addEdge_ok_ne hok
  rw [addEdge_undirected_eq hd hne e] at hok
  exact addEdgeCanon_slots hB.wf hd (min_lt_max.mpr hne) hok

/-- C4 witness: canonical and mirror slots of the concrete graph `gU`. -/
theorem addEdge_undirected_canonical_witness :
    slot gU (min 0 1) (max 0 1) = some (some 5) ∧
    slot gU (max 0 1) (min 0 1) = some none :=
  addEdge_undirected_canonical (Built.newG false) rfl
    (rfl : addEdge (Graph.new Nat Nat false) ((0 : Nat), 1) 5
      = Except.ok (5, gU))

/-- C5: after inserting an edge with payload into an undirected graph,
`find_edge((u, v))` and `find_edge((v, u))` both return that same stored
payload (and when the edge was not present before the call, the stored
payload is the inserted one). -/
theorem findEdge_undirected_symmetric {g : Graph V E} {u v : V} {e p : E}
    {g' : Graph V E} (hd : g.directed = false)
    (hok : addEdge g (u, v) e = Except.ok (p, g')) :
    findEdge g' (u, v) = some p ∧ findEdge g' (v, u) = some p ∧
    (findEdge g (u, v) = none → p = e) := by
  have hne := addEdge_ok_ne hok
  rw [addEdge_undirected_eq hd hne e] at hok
  obtain ⟨hg', hslot⟩ := addEdgeCanon_ok hok
  have hd' : g'.directed = false := by rw [hg']; exact hd
  refine ⟨?_, ?_, ?_⟩
  · rw [findEdge_undirected_eq hd', hslot]
    rfl
  · rw [findEdge_undirected_eq hd', min_comm v u, max_comm v u, hslot]
    rfl
  · intro hnone
    rw [findEdge_undirected_eq hd] at hnone
    rw [hg'] at hslot
    have hslot2 : slotN
        (entryOrInsert (mirrorStep g (min u v) (max u v)) (min u v)
          (max u v) (some e)) (min u v) (max u v) = some (some p) := hslot
    rw [slotN_entryOrInsert_self, mirrorStep_undirected hd,
      slotN_entryOrInsert_outer_ne (min_lt_max.mpr hne).ne] at hslot2
    cases hsl : slotN g.node_tables (min u v) (max u v) with
    | none =>
      rw [hsl] at hslot2
      simp only [Option.getD_none, Option.some_inj] at hslot2
      exact hslot2.symm
    | some oe =>
      rw [hsl] at hnone hslot2
      cases oe with
      | none =>
        simp only [Option.getD_some, Option.some_inj] at hslot2
        exact Option.noConfusion hslot2
      | some q =>
        simp at hnone

/-- C5 witness: both lookup directions on the concrete graph `gU`. -/
theorem findEdge_undirected_symmetric_witness :
    findEdge gU (0, 1) = some 5 ∧ findEdge gU (1, 0) = some 5 ∧
    (findEdge (Graph.new Nat Nat false) (0, 1) = none → 5 = 5) :=
  findEdge_undirected_symmetric rfl
    (rfl : addEdge (Graph.new Nat Nat false) ((0 : Nat), 1) 5
      = Except.ok (5, gU))

/-- C6: inserting `(u, v)` into a directed graph leaves the reverse lookup
`find_edge((v, u))` unchanged — so the reverse direction reports an edge
only if `(v, u)` was itself separately inserted; directed lookup is
strict. -/
theorem findEdge_directed_strict {g : Graph V E} {u v : V} {e p : E}
    {g' : Graph V E} (hd : g.directed = true)
    (hok : addEdge g (u, v) e = Except.ok (p, g')) :
    findEdge g' (v, u) = findEdge g (v, u) := by
  have hne := addEdge_ok_ne hok
  rw [addEdge_directed_eq hd hne e] at hok
  obtain ⟨hg', _⟩ := addEdgeCanon_ok hok
  have hd' : g'.directed = true := by rw [hg']; exact hd
  rw [findEdge_directed_eq hd', findEdge_directed_eq hd, hg']
  show (slotN (entryOrInsert (mirrorStep g u v) u v (some e)) v u).bind id
    = (slotN g.node_tables v u).bind id
  rw [mirrorStep_directed hd, slotN_entryOrInsert_outer_ne (Ne.symm hne)]

/-- C6 witness: the reverse lookup on the concrete directed graph `gD` is
the same as on the empty graph, i.e. `none`. -/
theorem findEdge_directed_strict_witness :
    findEdge gD (1, 0) = findEdge (Graph.new Nat Nat true) (1, 0) :=
  findEdge_directed_strict rfl
    (rfl : addEdge (Graph.new Nat Nat true) ((0 : Nat), 1) 5
      = Except.ok (5, gD))

/-- C7: inserting the same canonical edge twice into an undirected graph
retains the first payload and discards the second: the second `add_edge`
returns the already-stored payload `p` (not `B`) and leaves the graph
unchanged, and `find_edge` still reports `p`. -/
theorem addEdge_idempotent {g : Graph V E} {u v : V} {A p : E}
    {g1 : Graph V E} (hd : g.directed = false)
    (h1 : addEdge g (u, v) A = Except.ok (p, g1)) (B : E) :
    addEdge g1 (v, u) B = Except.ok (p, g1) ∧ findEdge g1 (u, v) = some p := by
  have hne := addEdge_ok_ne h1
  rw [addEdge_undirected_eq hd hne A] at h1
  have hd1 : g1.directed = false := by
    obtain ⟨hg1, _⟩ := addEdgeCanon_ok h1
    rw [hg1]; exact hd
  constructor
  · rw [addEdge_undirected_eq hd1 (Ne.symm hne) B, min_comm v u, max_comm v u]
    exact addEdgeCanon_idem hd (min_lt_max.mpr hne).ne h1 B
  · obtain ⟨hg1, hslot⟩ := addEdgeCanon_ok h1
    rw [findEdge_undirected_eq hd1, hslot]
    rfl

/-- C7 witness: `add_edge((0, 1), 5)` then `add_edge((1, 0), 9)` on an
empty undirected graph keeps payload `5` and returns it from the second
call. -/
theorem addEdge_idempotent_witness :
    addEdge gU (1, 0) 9 = Except.ok (5, gU) ∧ findEdge gU (0, 1) = some 5 :=
  addEdge_idempotent rfl
    (rfl : addEdge (Graph.new Nat Nat false) ((0 : Nat), 1) 5
      = Except.ok (5, gU)) 9

/-- C8: `add_edge((x, x), e)` always fails with the self-loop panic
(`InvalidEdge`), for every graph, vertex and payload. The check is the
first statement of `add_edge`, before any `add_vertex` call, so the
rejected call performs no mutation at all: the error carries no graph and
the caller's graph is untouched, with neither endpoint registered. -/
theorem addEdge_self_loop_rejected (g : Graph V E) (x : V) (e : E) :
    addEdge g (x, x) e = Except.error AddEdgeError.selfLoop :=
  addEdge_self_loop_eq g x e

omit [LinearOrder V] in
/-- C9: `create_trav(v, method)` (the common constructor behind `bfs` and
`dfs`) panics (`none`) exactly when the start vertex is not registered, and
otherwise starts with the singleton frontier `[v]` and the back-pointer map
`{v -> v}`. -/
theorem createTrav_spec (g : Graph V E) (v : V) (m : TraverseMethod) :
    (v ∉ g.vertices → createTrav g v m = none) ∧
    (v ∈ g.vertices →
      createTrav g v m =
        some { back_ptr := [(v, v)], search_queue := [v], method := m }) := by
  have hiff : (alookup g.node_tables v).isNone = true ↔ v ∉ g.vertices := by
    rw [Option.isNone_iff_eq_none, alookup_eq_none_iff]
    exact Iff.rfl
  constructor
  · intro hv
    unfold createTrav
    rw [if_pos (hiff.mpr hv)]
  · intro hv
    unfold createTrav
    rw [if_neg (fun h => (hiff.mp h) hv)]
    rfl

/-- C9 witness: on `gU`, the unregistered vertex `5` is rejected and the
registered vertex `0` yields the initial traversal state. -/
theorem createTrav_spec_witness :
    createTrav gU 5 TraverseMethod.BFS = none ∧
    createTrav gU 0 TraverseMethod.DFS =
      some { back_ptr := [(0, 0)], search_queue := [0],
             method := TraverseMethod.DFS } :=
  ⟨(createTrav_spec gU 5 TraverseMethod.BFS).1 (by decide),
   (createTrav_spec gU 0 TraverseMethod.DFS).2 (by decide)⟩

/-- C10: on every graph built through the API, `add_edge` never hits the
final `.as_mut().unwrap()` panic: the canonical slot written by the call
always holds a present payload, because mirror markers (`none`) are only
ever written at `(max, min)` with `max > min`, never at a canonical slot. -/
theorem addEdge_unwrap_safe {g : Graph V E} (hB : Built g) (uv : V × V)
    (e : E) : addEdge g uv e ≠ Except.error AddEdgeError.unwrapPanic := by
  obtain ⟨u, v⟩ := uv
  by_cases hne : u = v
  · subst hne
    rw [addEdge_self_loop_eq]
    intro h
    exact AddEdgeError.noConfusion (Except.error.inj h)
  · cases hd : g.directed with
    | false =>
      rw [addEdge_undirected_eq hd hne e]
      obtain ⟨q, g', hq⟩ := addEdgeCanon_no_unwrap e hB.wf
        (fun _ => min_lt_max.mpr hne) (min_lt_max.mpr hne).ne
      rw [hq]
      intro h
      exact Except.noConfusion h
    | true =>
      rw [addEdge_directed_eq hd hne e]
      obtain ⟨q, g', hq⟩ := addEdgeCanon_no_unwrap e hB.wf
        (fun hf => absurd hf (by simp [hd])) hne
      rw [hq]
      intro h
      exact Except.noConfusion h

/-- C10 witness: adding a further edge to the built graph `gU` cannot hit
the unwrap panic. -/
theorem addEdge_unwrap_safe_witness :
    addEdge gU (1, 2) 7 ≠ Except.error AddEdgeError.unwrapPanic :=
  addEdge_unwrap_safe
    (Built.edgeStep (Built.newG false)
      (rfl : addEdge (Graph.new Nat Nat false) ((0 : Nat), 1) 5
        = Except.ok (5, gU)))
    (1, 2) 7

end Claims
